import Mathlib

/-!
Verification development for the fork-backed memory backend
(`src/backend/memory_or_fork.rs`): a local overlay of account state over a
remote, read-only fork source.

Modelling conventions:

* `U256`/`H256`/`H160` values are modelled as `Nat`. The only arithmetic on
  them is the subtraction in `block_hash`, which the source guards so it
  cannot underflow (the `||` short-circuits), so `Nat` subtraction agrees
  with checked `U256` subtraction on every evaluated path; all other uses
  are equality tests and map keys.
* `BTreeMap` is modelled as an association list with unique keys: `bLookup`
  is keyed lookup, `bInsert` replaces in place or appends, `bErase` drops
  the key. No observation made by the backend depends on iteration order.
* The `ethers` provider with `block_on` + `.expect` is modelled as a
  `Provider` record of fallible query functions; a panicking `.expect` is
  modelled as `Except.error` aborting the read.
* Every provider-touching read returns a `ReadOut`: the result, the list of
  remote queries issued (in issue order), and the backend state the read
  leaves behind. The source read methods take `&self` and never write
  through it (they mutate only a local clone of the account, which is
  dropped), so `post` is the receiver itself.
* The external hashing primitive (Keccak-256) is out of scope and passed as
  an abstract function argument to `code_hash`.
* `Basic`, `Apply`, `Log`, `MemoryVicinity` are declared in a sibling module
  of the source; their fields are transcribed from their uses in this file's
  source and from the specification of the execution context and diff.
-/

abbrev U256 := Nat
abbrev H256 := Nat
abbrev H160 := Nat

/-- Content model of `BTreeMap` keyed by a `Nat`-encoded key. -/
abbrev BMap (β : Type) := List (Nat × β)

/-- Storage mapping: `BTreeMap(H256, H256)`. -/
abbrev Smap := BMap Nat

/-- Model of `BTreeMap::get`. -/
def bLookup {β : Type} : BMap β → Nat → Option β
  | [], _ => none
  | (k', v) :: rest, k => if k' = k then some v else bLookup rest k

/-- Model of `BTreeMap::insert`: replace in place, or append when the key is absent. -/
def bInsert {β : Type} : BMap β → Nat → β → BMap β
  | [], k, v => [(k, v)]
  | (k', v') :: rest, k, v =>
    if k' = k then (k, v) :: rest else (k', v') :: bInsert rest k v

/-- Model of `BTreeMap::remove` (drops every entry with the key; maps have unique keys). -/
def bErase {β : Type} : BMap β → Nat → BMap β
  | [], _ => []
  | (k', v) :: rest, k =>
    if k' = k then bErase rest k else (k', v) :: bErase rest k

/-- Model of `storage.into_iter().filter(|(_, v)| v != &H256::default())`: drop
zero-valued entries. -/
def pruneZeros : Smap → Smap
  | [] => []
  | (k, v) :: rest => if v = 0 then pruneZeros rest else (k, v) :: pruneZeros rest

/-- The commit-time merge loop: for each `(index, value)` pair in order,
a zero value removes the key, a nonzero value inserts/overwrites it. -/
def mergeStorage : Smap → List (Nat × Nat) → Smap
  | m, [] => m
  | m, (index, value) :: rest =>
    mergeStorage (if value = 0 then bErase m index else bInsert m index value) rest

/-- Account record `ForkMemoryAccount`: per-address cached state, each field independently
resolved (`some`) or unresolved (`none`). Field order as in the source. -/
structure ForkMemoryAccount where
  nonce : Option U256
  balance : Option U256
  storage : Option Smap
  code : Option (List Nat)
  deriving DecidableEq

/-- Value of `Default::default()` for `ForkMemoryAccount`: all fields unresolved. -/
def emptyAccount : ForkMemoryAccount :=
  { nonce := none, balance := none, storage := none, code := none }

/-- Execution context (`MemoryVicinity`), immutable block-level parameters. -/
structure MemoryVicinity where
  gas_price : U256
  origin : H160
  chain_id : U256
  block_hashes : List H256
  block_number : U256
  block_coinbase : H160
  block_timestamp : U256
  block_difficulty : U256
  block_gas_limit : U256
  deriving DecidableEq

/-- An emitted event-log record. -/
structure Log where
  address : H160
  topics : List H256
  data : List Nat
  deriving DecidableEq

/-- Historical block reference (`ethers::types::BlockNumber`); only the
variants the backend can be constructed with matter here. An `Option
BlockNumber` argument of `none` means the unqualified "latest" block. -/
inductive BlockNumber where
  | latest
  | number (n : Nat)
  deriving DecidableEq

/-- A remote query issued to the provider, together with the historical
block reference it was qualified with. -/
inductive Query where
  | getBalance (address : H160) (block : Option BlockNumber)
  | getTransactionCount (address : H160) (block : Option BlockNumber)
  | getCode (address : H160) (block : Option BlockNumber)
  | getStorageAt (address : H160) (index : H256) (block : Option BlockNumber)
  deriving DecidableEq

/-- The remote state source: four fallible queries, each optionally
qualified by a historical block reference. -/
structure Provider where
  getBalance : H160 → Option BlockNumber → Except String U256
  getTransactionCount : H160 → Option BlockNumber → Except String U256
  getCode : H160 → Option BlockNumber → Except String (List Nat)
  getStorageAt : H160 → H256 → Option BlockNumber → Except String H256

/-- Overlay state `ForkMemoryBackend`. The provider's query functions
are passed alongside at each read instead of being stored, so that the
state itself has decidable equality. -/
structure ForkMemoryBackend where
  vicinity : MemoryVicinity
  state : BMap ForkMemoryAccount
  logs : List Log
  block : Option BlockNumber
  deriving DecidableEq

/-- Outcome of a read: result, remote queries issued in order, and the
overlay state left behind by the read. -/
structure ReadOut (α : Type) where
  result : Except String α
  queries : List Query
  post : ForkMemoryBackend

/-- Struct `Basic`: the balance/nonce pair returned by `basic`. -/
structure Basic where
  balance : U256
  nonce : U256
  deriving DecidableEq

def isErr {α : Type} : Except String α → Bool
  | .error _ => true
  | .ok _ => false

/-- Read `fn exists(&self, address) -> bool`: membership in the overlay only
(never queries the remote source). Named `existsAddr` because `exists` is a
reserved word in Lean. -/
def ForkMemoryBackend.existsAddr (b : ForkMemoryBackend) (address : H160) : Bool :=
  (bLookup b.state address).isSome

def ForkMemoryBackend.gas_price (b : ForkMemoryBackend) : U256 := b.vicinity.gas_price

def ForkMemoryBackend.origin (b : ForkMemoryBackend) : H160 := b.vicinity.origin

def ForkMemoryBackend.block_number (b : ForkMemoryBackend) : U256 := b.vicinity.block_number

def ForkMemoryBackend.block_coinbase (b : ForkMemoryBackend) : H160 := b.vicinity.block_coinbase

def ForkMemoryBackend.block_timestamp (b : ForkMemoryBackend) : U256 := b.vicinity.block_timestamp

def ForkMemoryBackend.block_difficulty (b : ForkMemoryBackend) : U256 := b.vicinity.block_difficulty

def ForkMemoryBackend.block_gas_limit (b : ForkMemoryBackend) : U256 := b.vicinity.block_gas_limit

def ForkMemoryBackend.chain_id (b : ForkMemoryBackend) : U256 := b.vicinity.chain_id

/-- Read `fn block_hash(&self, number)`: zero hash at or after the current block
or outside the recent-hash window, otherwise the stored hash at offset
`block_number - number - 1`. Pure function of the vicinity; the subtraction
is only semantically relevant when `number < block_number` (the source's
`||` short-circuits), where `Nat` and checked `U256` subtraction agree. -/
def ForkMemoryBackend.block_hash (b : ForkMemoryBackend) (number : U256) : H256 :=
  if number ≥ b.vicinity.block_number ∨
      b.vicinity.block_number - number - 1 ≥ b.vicinity.block_hashes.length then
    0
  else
    b.vicinity.block_hashes.getD (b.vicinity.block_number - number - 1) 0

/-- The two sequential `if let` blocks of `fn basic` resolving balance then
nonce from a (possibly just synthesized) account clone: each unresolved
field issues its own remote query at `blk`; a failure aborts immediately. -/
def basicResolve (p : Provider) (blk : Option BlockNumber) (address : H160)
    (account : ForkMemoryAccount) : Except String Basic × List Query :=
  match account.balance with
  | some bal =>
    (match account.nonce with
     | some non => (.ok { balance := bal, nonce := non }, [])
     | none =>
       match p.getTransactionCount address blk with
       | .ok non => (.ok { balance := bal, nonce := non }, [.getTransactionCount address blk])
       | .error e => (.error e, [.getTransactionCount address blk]))
  | none =>
    match p.getBalance address blk with
    | .error e => (.error e, [.getBalance address blk])
    | .ok bal =>
      match account.nonce with
      | some non => (.ok { balance := bal, nonce := non }, [.getBalance address blk])
      | none =>
        match p.getTransactionCount address blk with
        | .ok non =>
          (.ok { balance := bal, nonce := non },
           [.getBalance address blk, .getTransactionCount address blk])
        | .error e =>
          (.error e, [.getBalance address blk, .getTransactionCount address blk])

/-- Body of `fn basic(&self, address)`: clone the account if present;
otherwise synthesize one by querying balance then nonce at the pinned block
(struct literal fields evaluate in written order: balance first). Then run
the two `if let` resolution blocks on the clone. -/
def basicCore (b : ForkMemoryBackend) (p : Provider) (address : H160) :
    Except String Basic × List Query :=
  match bLookup b.state address with
  | some acct => basicResolve p b.block address acct
  | none =>
    match p.getBalance address b.block with
    | .error e => (.error e, [.getBalance address b.block])
    | .ok bal =>
      match p.getTransactionCount address b.block with
      | .error e =>
        (.error e, [.getBalance address b.block, .getTransactionCount address b.block])
      | .ok non =>
        let rq := basicResolve p b.block address
          { nonce := some non, balance := some bal, storage := none, code := none }
        (rq.1, [.getBalance address b.block, .getTransactionCount address b.block] ++ rq.2)

/-- Read `fn basic(&self, address)`. The mutated clone is dropped: `post` is the
unchanged receiver. -/
def ForkMemoryBackend.basic (b : ForkMemoryBackend) (p : Provider) (address : H160) :
    ReadOut Basic :=
  { result := (basicCore b p address).1, queries := (basicCore b p address).2, post := b }

/-- The shared code-resolution pattern of `fn code`, `fn code_size` and
`fn code_hash` (their bodies are identical up to the final projection):
return the cached code, or query it at the pinned block. -/
def codeResolve (b : ForkMemoryBackend) (p : Provider) (address : H160) :
    Except String (List Nat) × List Query :=
  match bLookup b.state address with
  | some acct =>
    match acct.code with
    | some c => (.ok c, [])
    | none =>
      match p.getCode address b.block with
      | .ok c => (.ok c, [.getCode address b.block])
      | .error e => (.error e, [.getCode address b.block])
  | none =>
    match p.getCode address b.block with
    | .ok c => (.ok c, [.getCode address b.block])
    | .error e => (.error e, [.getCode address b.block])

/-- Read `fn code(&self, address)`. -/
def ForkMemoryBackend.code (b : ForkMemoryBackend) (p : Provider) (address : H160) :
    ReadOut (List Nat) :=
  let rq := codeResolve b p address
  { result := rq.1, queries := rq.2, post := b }

/-- Read `fn code_size(&self, address)`: byte length of the resolved code. -/
def ForkMemoryBackend.code_size (b : ForkMemoryBackend) (p : Provider) (address : H160) :
    ReadOut Nat :=
  let rq := codeResolve b p address
  { result := rq.1.map List.length, queries := rq.2, post := b }

/-- Read `fn code_hash(&self, address)`: Keccak-256 of the resolved code; the
hashing primitive is external and passed in abstractly. -/
def ForkMemoryBackend.code_hash (b : ForkMemoryBackend) (p : Provider)
    (keccak : List Nat → H256) (address : H160) : ReadOut H256 :=
  let rq := codeResolve b p address
  { result := rq.1.map keccak, queries := rq.2, post := b }

/-- Body of `fn storage(&self, address, index)`. The source computes the fallback
with `entry(index).or_insert(remote)`, whose argument is evaluated *eagerly*
(before checking whether the key is present), so a remote query — pinned to
`None`, i.e. "latest", not `self.block` — is issued on every call, and a
remote failure aborts the read even for a cached key. When the key is
present the cached value is returned; otherwise the fetched value is. The
insertion happens only in the dropped local clone: `post` is the receiver. -/
def storageCore (b : ForkMemoryBackend) (p : Provider) (address : H160)
    (index : H256) : Except String H256 × List Query :=
  let acctStorage : Option Smap :=
    match bLookup b.state address with
    | some acct => acct.storage
    | none => some []
  match acctStorage with
  | some st =>
    match p.getStorageAt address index none with
    | .error e => (.error e, [.getStorageAt address index none])
    | .ok remote =>
      match bLookup st index with
      | some v => (.ok v, [.getStorageAt address index none])
      | none => (.ok remote, [.getStorageAt address index none])
  | none =>
    match p.getStorageAt address index none with
    | .error e => (.error e, [.getStorageAt address index none])
    | .ok remote => (.ok remote, [.getStorageAt address index none])

/-- Read `fn storage(&self, address, index)` (see `storageCore` for the body);
the insertion into the cloned map is dropped: `post` is the receiver. -/
def ForkMemoryBackend.storage (b : ForkMemoryBackend) (p : Provider) (address : H160)
    (index : H256) : ReadOut H256 :=
  { result := (storageCore b p address index).1,
    queries := (storageCore b p address index).2, post := b }

/-- One entry of a diff (`Apply`): per-address modification or deletion. -/
inductive Apply where
  | Modify (address : H160) (basic : Basic) (code : Option (List Nat))
      (storage : List (H256 × H256)) (reset_storage : Bool)
  | Delete (address : H160)

/-- The mutation a `Modify` entry performs on the located-or-created account:
set balance/nonce unconditionally, set code if supplied, discard storage if
`reset_storage`, prune zero-valued entries, then merge the updates. -/
def modifyAccount (st : BMap ForkMemoryAccount) (address : H160) (basic : Basic)
    (code : Option (List Nat)) (storage : List (H256 × H256)) (reset_storage : Bool) :
    ForkMemoryAccount :=
  let account := (bLookup st address).getD emptyAccount
  let account := { account with balance := some basic.balance, nonce := some basic.nonce }
  let account :=
    match code with
    | some c => { account with code := some c }
    | none => account
  let account := if reset_storage then { account with storage := none } else account
  let zeros := pruneZeros (account.storage.getD [])
  let account := { account with storage := some zeros }
  let s := mergeStorage zeros storage
  { account with storage := some s }

/-- The `is_empty` signal computed at the end of the `Modify` arm:
`account.balance == None && account.nonce == None && account.code == None`. -/
def accountIsEmpty (a : ForkMemoryAccount) : Bool :=
  a.balance.isNone && a.nonce.isNone && a.code.isNone

/-- One iteration of the `apply` loop. A `Modify` writes the mutated
account into the map (the `entry` API inserts it), then removes it again
when `is_empty && delete_empty`; a `Delete` removes the record. -/
def applyOne (st : BMap ForkMemoryAccount) (delete_empty : Bool) : Apply → BMap ForkMemoryAccount
  | .Modify address basic code storage reset_storage =>
    let account := modifyAccount st address basic code storage reset_storage
    let st' := bInsert st address account
    if accountIsEmpty account && delete_empty then bErase st' address else st'
  | .Delete address => bErase st address

/-- Commit `fn apply(&mut self, values, logs, delete_empty)`: fold the diff entries
over the state in order, then append the logs in order. -/
def ForkMemoryBackend.apply (b : ForkMemoryBackend) (values : List Apply) (logs : List Log)
    (delete_empty : Bool) : ForkMemoryBackend :=
  { b with
    state := values.foldl (fun st ap => applyOne st delete_empty ap) b.state,
    logs := b.logs ++ logs }

/-- The address's balance field is unresolved (or the address is absent, in
which case `basic` synthesizes an account by querying). -/
def balanceUnresolved (b : ForkMemoryBackend) (address : H160) : Bool :=
  match bLookup b.state address with
  | some acct => acct.balance.isNone
  | none => true

/-- The address's nonce field is unresolved (or the address is absent). -/
def nonceUnresolved (b : ForkMemoryBackend) (address : H160) : Bool :=
  match bLookup b.state address with
  | some acct => acct.nonce.isNone
  | none => true

/-- The address's code field is unresolved (or the address is absent). -/
def codeUnresolved (b : ForkMemoryBackend) (address : H160) : Bool :=
  match bLookup b.state address with
  | some acct => acct.code.isNone
  | none => true

/-- The storage slot `(address, index)` is not individually resolved in the
overlay: the address is absent, its storage mapping is unresolved, or the
key is missing from the resolved mapping. -/
def storageKeyUnresolved (b : ForkMemoryBackend) (address : H160) (index : H256) : Bool :=
  match bLookup b.state address with
  | some acct =>
    match acct.storage with
    | some st => (bLookup st index).isNone
    | none => true
  | none => true

/-- The last write the update list performs for key `k`, scanning from the
back: `some v` when the last pair with key `k` carries value `v`. -/
def lastAction (u : List (Nat × Nat)) (k : Nat) : Option Nat :=
  match u with
  | [] => none
  | (k', v') :: rest =>
    match lastAction rest k with
    | some v => some v
    | none => if k' = k then some v' else none

/-- The address a diff entry names. -/
def Apply.addressOf : Apply → H160
  | .Modify a _ _ _ _ => a
  | .Delete a => a

/-- The addresses named by a diff, in diff order. -/
def touchedAddrs (values : List Apply) : List H160 :=
  values.map Apply.addressOf

/-- Every persisted storage entry carries a nonzero value. -/
def AllNonzero (m : Smap) : Prop :=
  ∀ q ∈ m, q.2 ≠ 0

/-- Observational equality of the storage field: same resolvedness and, when
resolved, the same value at every key. -/
def obsEqStorage : Option Smap → Option Smap → Prop
  | none, none => True
  | some m1, some m2 => ∀ k, bLookup m1 k = bLookup m2 k
  | _, _ => False

/-- Observational equality of account records: equal balance, nonce and code
fields, and observationally equal storage. -/
def obsEqAccount (x y : ForkMemoryAccount) : Prop :=
  x.balance = y.balance ∧ x.nonce = y.nonce ∧ x.code = y.code ∧
    obsEqStorage x.storage y.storage

/-- A provider whose every query succeeds, with distinguishable answers. -/
def okProvider : Provider :=
  { getBalance := fun _ _ => .ok 100
  , getTransactionCount := fun _ _ => .ok 7
  , getCode := fun _ _ => .ok [1, 2]
  , getStorageAt := fun _ _ _ => .ok 55 }

/-- A provider whose every query fails. -/
def errProvider : Provider :=
  { getBalance := fun _ _ => .error "node unreachable"
  , getTransactionCount := fun _ _ => .error "node unreachable"
  , getCode := fun _ _ => .error "node unreachable"
  , getStorageAt := fun _ _ _ => .error "node unreachable" }

/-- A concrete execution context: current block 10, three recent hashes. -/
def wVicinity : MemoryVicinity :=
  { gas_price := 1, origin := 2, chain_id := 3, block_hashes := [101, 102, 103],
    block_number := 10, block_coinbase := 4, block_timestamp := 5,
    block_difficulty := 6, block_gas_limit := 7 }

/-- An account with every field resolved and storage key 2 cached as 44. -/
def resolvedAccount : ForkMemoryAccount :=
  { nonce := some 3, balance := some 8, storage := some [(2, 44)], code := some [9, 9] }

/-- A backend whose address 1 holds `resolvedAccount`. -/
def wResolvedBackend : ForkMemoryBackend :=
  { vicinity := wVicinity, state := [(1, resolvedAccount)], logs := [],
    block := some (.number 10) }

/-- A backend with an empty overlay. -/
def wEmptyBackend : ForkMemoryBackend :=
  { vicinity := wVicinity, state := [], logs := [], block := some (.number 10) }

/-! ### Association-list map lemmas -/

theorem bLookup_bInsert_self {β : Type} (m : BMap β) (k : Nat) (v : β) :
    bLookup (bInsert m k v) k = some v := by
  induction m with
  | nil => simp [bInsert, bLookup]
  | cons hd tl ih =>
    obtain ⟨k', v'⟩ := hd
    by_cases h : k' = k
    · simp [bInsert, bLookup, h]
    · simp [bInsert, bLookup, h, ih]

theorem bLookup_bInsert_ne {β : Type} (m : BMap β) (k j : Nat) (v : β) (h : j ≠ k) :
    bLookup (bInsert m k v) j = bLookup m j := by
  induction m with
  | nil => simp [bInsert, bLookup, Ne.symm h]
  | cons hd tl ih =>
    obtain ⟨k', v'⟩ := hd
    by_cases hk : k' = k
    · subst hk
      simp [bInsert, bLookup, Ne.symm h]
    · simp [bInsert, bLookup, hk, ih]

theorem bLookup_bErase_self {β : Type} (m : BMap β) (k : Nat) :
    bLookup (bErase m k) k = none := by
  induction m with
  | nil => simp [bErase, bLookup]
  | cons hd tl ih =>
    obtain ⟨k', v'⟩ := hd
    by_cases hk : k' = k
    · simp [bErase, hk, ih]
    · simp [bErase, bLookup, hk, ih]

theorem bLookup_bErase_ne {β : Type} (m : BMap β) (k j : Nat) (h : j ≠ k) :
    bLookup (bErase m k) j = bLookup m j := by
  induction m with
  | nil => simp [bErase]
  | cons hd tl ih =>
    obtain ⟨k', v'⟩ := hd
    by_cases hk : k' = k
    · subst hk
      simp [bErase, bLookup, Ne.symm h, ih]
    · simp [bErase, bLookup, hk, ih]

theorem bErase_of_none {β : Type} (m : BMap β) (k : Nat) (h : bLookup m k = none) :
    bErase m k = m := by
  induction m with
  | nil => rfl
  | cons hd tl ih =>
    obtain ⟨k', v'⟩ := hd
    by_cases hk : k' = k
    · simp [bLookup, hk] at h
    · simp [bLookup, hk] at h
      simp [bErase, hk, ih h]

/-! ### Merge and prune lemmas -/

theorem lastAction_of_not_mem (u : List (Nat × Nat)) (k : Nat)
    (h : k ∉ u.map Prod.fst) : lastAction u k = none := by
  induction u with
  | nil => rfl
  | cons hd rest ih =>
    obtain ⟨k', v'⟩ := hd
    simp only [List.map_cons, List.mem_cons, not_or] at h
    rw [lastAction, ih h.2]
    have hne : k' ≠ k := fun he => h.1 he.symm
    simp [hne]

theorem lastAction_of_mem_nodup (u : List (Nat × Nat)) (k v : Nat)
    (hm : (k, v) ∈ u) (hnd : (u.map Prod.fst).Nodup) : lastAction u k = some v := by
  induction u with
  | nil => cases hm
  | cons hd rest ih =>
    obtain ⟨k', v'⟩ := hd
    simp only [List.map_cons, List.nodup_cons] at hnd
    rcases List.mem_cons.mp hm with heq | hmem
    · obtain ⟨hk, hv⟩ := Prod.mk.injEq .. ▸ heq
      subst hk
      subst hv
      rw [lastAction, lastAction_of_not_mem _ _ hnd.1]
      simp
    · rw [lastAction, ih hmem hnd.2]

theorem bLookup_mergeStorage (u : List (Nat × Nat)) (m : Smap) (k : Nat) :
    bLookup (mergeStorage m u) k =
      match lastAction u k with
      | none => bLookup m k
      | some v => if v = 0 then none else some v := by
  induction u generalizing m with
  | nil => rfl
  | cons hd rest ih =>
    obtain ⟨k', v'⟩ := hd
    rw [mergeStorage, ih]
    cases hLA : lastAction rest k with
    | some v => simp [lastAction, hLA]
    | none =>
      simp only [lastAction, hLA]
      by_cases hk : k' = k
      · subst hk
        by_cases hv : v' = 0
        · simp [hv, bLookup_bErase_self]
        · simp [hv, bLookup_bInsert_self]
      · by_cases hv : v' = 0
        · simp [hv, hk, bLookup_bErase_ne _ _ _ (Ne.symm hk)]
        · simp [hv, hk, bLookup_bInsert_ne _ _ _ _ (Ne.symm hk)]

theorem allNonzero_pruneZeros (m : Smap) : AllNonzero (pruneZeros m) := by
  induction m with
  | nil => intro q hq; cases hq
  | cons hd tl ih =>
    obtain ⟨k, v⟩ := hd
    by_cases hv : v = 0
    · simpa [pruneZeros, hv] using ih
    · intro q hq
      rw [pruneZeros] at hq
      simp only [hv, if_false, List.mem_cons] at hq
      rcases hq with h | h
      · subst h; exact hv
      · exact ih q h

theorem allNonzero_bInsert (m : Smap) (k v : Nat) (hm : AllNonzero m) (hv : v ≠ 0) :
    AllNonzero (bInsert m k v) := by
  induction m with
  | nil => intro q hq; simp [bInsert] at hq; subst hq; exact hv
  | cons hd tl ih =>
    obtain ⟨k', v'⟩ := hd
    have hv' : v' ≠ 0 := hm (k', v') (List.mem_cons_self _ _)
    have htl : AllNonzero tl := fun q hq => hm q (List.mem_cons_of_mem _ hq)
    by_cases hk : k' = k
    · intro q hq
      simp only [bInsert, hk, if_true, List.mem_cons] at hq
      rcases hq with h | h
      · subst h; exact hv
      · exact htl q h
    · intro q hq
      simp only [bInsert, hk, if_false, List.mem_cons] at hq
      rcases hq with h | h
      · subst h; exact hv'
      · exact ih htl q h

theorem allNonzero_bErase (m : Smap) (k : Nat) (hm : AllNonzero m) :
    AllNonzero (bErase m k) := by
  induction m with
  | nil => intro q hq; cases hq
  | cons hd tl ih =>
    obtain ⟨k', v'⟩ := hd
    have hv' : v' ≠ 0 := hm (k', v') (List.mem_cons_self _ _)
    have htl : AllNonzero tl := fun q hq => hm q (List.mem_cons_of_mem _ hq)
    by_cases hk : k' = k
    · simpa [bErase, hk] using ih htl
    · intro q hq
      simp only [bErase, hk, if_false, List.mem_cons] at hq
      rcases hq with h | h
      · subst h; exact hv'
      · exact ih htl q h

theorem allNonzero_mergeStorage (u : List (Nat × Nat)) (m : Smap) (hm : AllNonzero m) :
    AllNonzero (mergeStorage m u) := by
  induction u generalizing m with
  | nil => exact hm
  | cons hd rest ih =>
    obtain ⟨k, v⟩ := hd
    rw [mergeStorage]
    by_cases hv : v = 0
    · simpa [hv] using ih _ (allNonzero_bErase m k hm)
    · simpa [hv] using ih _ (allNonzero_bInsert m k v hm hv)

theorem pruneZeros_of_allNonzero (m : Smap) (hm : AllNonzero m) : pruneZeros m = m := by
  induction m with
  | nil => rfl
  | cons hd tl ih =>
    obtain ⟨k, v⟩ := hd
    have hv : v ≠ 0 := hm (k, v) (List.mem_cons_self _ _)
    have htl : AllNonzero tl := fun q hq => hm q (List.mem_cons_of_mem _ hq)
    simp [pruneZeros, hv, ih htl]

/-! ### Commit-path lemmas -/

theorem modifyAccount_balance (st : BMap ForkMemoryAccount) (a : H160) (bsc : Basic)
    (cd : Option (List Nat)) (u : List (Nat × Nat)) (rs : Bool) :
    (modifyAccount st a bsc cd u rs).balance = some bsc.balance := by
  cases cd <;> cases rs <;> simp [modifyAccount]

theorem modifyAccount_nonce (st : BMap ForkMemoryAccount) (a : H160) (bsc : Basic)
    (cd : Option (List Nat)) (u : List (Nat × Nat)) (rs : Bool) :
    (modifyAccount st a bsc cd u rs).nonce = some bsc.nonce := by
  cases cd <;> cases rs <;> simp [modifyAccount]

theorem modifyAccount_code (st : BMap ForkMemoryAccount) (a : H160) (bsc : Basic)
    (cd : Option (List Nat)) (u : List (Nat × Nat)) (rs : Bool) :
    (modifyAccount st a bsc cd u rs).code =
      match cd with
      | some c => some c
      | none => ((bLookup st a).getD emptyAccount).code := by
  cases cd <;> cases rs <;> simp [modifyAccount]

theorem modifyAccount_storage (st : BMap ForkMemoryAccount) (a : H160) (bsc : Basic)
    (cd : Option (List Nat)) (u : List (Nat × Nat)) (rs : Bool) :
    (modifyAccount st a bsc cd u rs).storage =
      some (mergeStorage
        (pruneZeros (if rs then [] else ((bLookup st a).getD emptyAccount).storage.getD [])) u) := by
  cases cd <;> cases rs <;> simp [modifyAccount]

theorem accountIsEmpty_modifyAccount (st : BMap ForkMemoryAccount) (a : H160) (bsc : Basic)
    (cd : Option (List Nat)) (u : List (Nat × Nat)) (rs : Bool) :
    accountIsEmpty (modifyAccount st a bsc cd u rs) = false := by
  simp [accountIsEmpty, modifyAccount_balance]

theorem lookup_applyOne_modify (st : BMap ForkMemoryAccount) (de : Bool) (a : H160)
    (bsc : Basic) (cd : Option (List Nat)) (u : List (Nat × Nat)) (rs : Bool) :
    bLookup (applyOne st de (.Modify a bsc cd u rs)) a =
      some (modifyAccount st a bsc cd u rs) := by
  rw [applyOne]
  rw [accountIsEmpty_modifyAccount]
  simp [bLookup_bInsert_self]

theorem lookup_applyOne_ne (st : BMap ForkMemoryAccount) (de : Bool) (ap : Apply)
    (a : H160) (h : a ≠ ap.addressOf) :
    bLookup (applyOne st de ap) a = bLookup st a := by
  cases ap with
  | Modify a' bsc cd u rs =>
    have h' : a ≠ a' := by simpa [Apply.addressOf] using h
    rw [applyOne]
    split
    · rw [bLookup_bErase_ne _ _ _ h', bLookup_bInsert_ne _ _ _ _ h']
    · rw [bLookup_bInsert_ne _ _ _ _ h']
  | Delete a' =>
    have h' : a ≠ a' := by simpa [Apply.addressOf] using h
    rw [applyOne, bLookup_bErase_ne _ _ _ h']

theorem lookup_applyFold_ne (values : List Apply) (st : BMap ForkMemoryAccount)
    (de : Bool) (a : H160) (h : a ∉ touchedAddrs values) :
    bLookup (values.foldl (fun acc ap => applyOne acc de ap) st) a = bLookup st a := by
  induction values generalizing st with
  | nil => rfl
  | cons hd tl ih =>
    simp only [touchedAddrs, List.map_cons, List.mem_cons, not_or] at h
    rw [List.foldl_cons, ih _ (by simpa [touchedAddrs] using h.2),
      lookup_applyOne_ne _ _ _ _ h.1]

/-! ### Read-path lemmas -/

theorem storageCore_queries (b : ForkMemoryBackend) (p : Provider) (a : H160) (i : H256) :
    (storageCore b p a i).2 = [Query.getStorageAt a i none] := by
  cases hb : bLookup b.state a with
  | none => cases hq : p.getStorageAt a i none <;> simp [storageCore, hb, hq, bLookup]
  | some acct =>
    cases hs : acct.storage with
    | none => cases hq : p.getStorageAt a i none <;> simp [storageCore, hb, hs, hq]
    | some st =>
      cases hq : p.getStorageAt a i none with
      | error e => simp [storageCore, hb, hs, hq]
      | ok remote => cases hv : bLookup st i <;> simp [storageCore, hb, hs, hq, hv]

theorem basicResolve_queries_all (p : Provider) (blk : Option BlockNumber) (a : H160)
    (acct : ForkMemoryAccount) :
    ((basicResolve p blk a acct).2.all fun q =>
      decide (q = Query.getBalance a blk) || decide (q = Query.getTransactionCount a blk))
      = true := by
  cases hb : acct.balance <;> cases hn : acct.nonce <;>
    cases hgb : p.getBalance a blk <;> cases hgn : p.getTransactionCount a blk <;>
      simp [basicResolve, hb, hn, hgb, hgn]

theorem basicCore_queries_all (b : ForkMemoryBackend) (p : Provider) (a : H160) :
    ((basicCore b p a).2.all fun q =>
      decide (q = Query.getBalance a b.block) ||
        decide (q = Query.getTransactionCount a b.block)) = true := by
  cases hb : bLookup b.state a with
  | some acct =>
    have := basicResolve_queries_all p b.block a acct
    simpa [basicCore, hb] using this
  | none =>
    cases hgb : p.getBalance a b.block <;> cases hgn : p.getTransactionCount a b.block <;>
      simp [basicCore, hb, hgb, hgn, basicResolve]

theorem codeResolve_queries_all (b : ForkMemoryBackend) (p : Provider) (a : H160) :
    ((codeResolve b p a).2.all fun q => decide (q = Query.getCode a b.block)) = true := by
  cases hb : bLookup b.state a with
  | none => cases hgc : p.getCode a b.block <;> simp [codeResolve, hb, hgc]
  | some acct =>
    cases hc : acct.code with
    | some c => simp [codeResolve, hb, hc]
    | none => cases hgc : p.getCode a b.block <;> simp [codeResolve, hb, hc, hgc]

theorem basicCore_resolved (b : ForkMemoryBackend) (p : Provider) (a : H160)
    (acct : ForkMemoryAccount) (bal non : U256) (ha : bLookup b.state a = some acct)
    (hb : acct.balance = some bal) (hn : acct.nonce = some non) :
    basicCore b p a = (.ok { balance := bal, nonce := non }, []) := by
  simp [basicCore, ha, basicResolve, hb, hn]

theorem codeResolve_resolved (b : ForkMemoryBackend) (p : Provider) (a : H160)
    (acct : ForkMemoryAccount) (c : List Nat) (ha : bLookup b.state a = some acct)
    (hc : acct.code = some c) :
    codeResolve b p a = (.ok c, []) := by
  simp [codeResolve, ha, hc]

theorem storageCore_hit (b : ForkMemoryBackend) (p : Provider) (a : H160) (i : H256)
    (acct : ForkMemoryAccount) (st : Smap) (v : H256) (ha : bLookup b.state a = some acct)
    (hs : acct.storage = some st) (hv : bLookup st i = some v) :
    storageCore b p a i =
      match p.getStorageAt a i none with
      | .ok _ => (.ok v, [Query.getStorageAt a i none])
      | .error e => (.error e, [Query.getStorageAt a i none]) := by
  cases hq : p.getStorageAt a i none <;> simp [storageCore, ha, hs, hv, hq]

theorem storageCore_miss (b : ForkMemoryBackend) (p : Provider) (a : H160) (i : H256)
    (acct : ForkMemoryAccount) (st : Smap) (ha : bLookup b.state a = some acct)
    (hs : acct.storage = some st) (hv : bLookup st i = none) :
    storageCore b p a i =
      match p.getStorageAt a i none with
      | .ok r => (.ok r, [Query.getStorageAt a i none])
      | .error e => (.error e, [Query.getStorageAt a i none]) := by
  cases hq : p.getStorageAt a i none <;> simp [storageCore, ha, hs, hv, hq]

theorem basicCore_queries_ne_nil_of_unresolved (b : ForkMemoryBackend) (p : Provider)
    (a : H160) (h : balanceUnresolved b a = true) : (basicCore b p a).2 ≠ [] := by
  cases hb : bLookup b.state a with
  | none =>
    cases hgb : p.getBalance a b.block <;> cases hgn : p.getTransactionCount a b.block <;>
      simp [basicCore, hb, hgb, hgn, basicResolve]
  | some acct =>
    have hbal : acct.balance = none := by
      simpa [balanceUnresolved, hb, Option.isNone_iff_eq_none] using h
    cases hgb : p.getBalance a b.block <;> cases hgn : p.getTransactionCount a b.block <;>
      cases hn : acct.nonce <;> simp [basicCore, hb, basicResolve, hbal, hn, hgb, hgn]

theorem mergeStorage_idem_lookup (P : Smap) (u : List (Nat × Nat)) (k : Nat) :
    bLookup (mergeStorage (pruneZeros (mergeStorage (pruneZeros P) u)) u) k =
      bLookup (mergeStorage (pruneZeros P) u) k := by
  have hNZ : AllNonzero (mergeStorage (pruneZeros P) u) :=
    allNonzero_mergeStorage u _ (allNonzero_pruneZeros P)
  rw [pruneZeros_of_allNonzero _ hNZ]
  rw [bLookup_mergeStorage u (mergeStorage (pruneZeros P) u) k]
  rw [bLookup_mergeStorage u (pruneZeros P) k]
  cases lastAction u k <;> rfl

/-! ### Claim theorems -/

/-- Claim C1: the delete-on-empty signal computed in `apply`'s `Modify` arm
is "balance, nonce and code fields are unresolved"; since the arm has just
unconditionally set balance and nonce to resolved values, the signal is
`false` for every address that reaches the arm, so after committing a
`Modify` for an address its account record is present in the overlay
regardless of the `delete_empty` policy flag. -/
theorem c1_delete_on_empty_dead_for_modify (st : BMap ForkMemoryAccount) (de : Bool)
    (a : H160) (bsc : Basic) (cd : Option (List Nat)) (u : List (H256 × H256)) (rs : Bool)
    (b : ForkMemoryBackend) (logs : List Log) :
    accountIsEmpty (modifyAccount st a bsc cd u rs) = false ∧
    bLookup (applyOne st de (.Modify a bsc cd u rs)) a =
      some (modifyAccount st a bsc cd u rs) ∧
    bLookup ((b.apply [.Modify a bsc cd u rs] logs de).state) a =
      some (modifyAccount b.state a bsc cd u rs) :=
  ⟨accountIsEmpty_modifyAccount st a bsc cd u rs,
   lookup_applyOne_modify st de a bsc cd u rs, by
    simp only [ForkMemoryBackend.apply, List.foldl_cons, List.foldl_nil]
    exact lookup_applyOne_modify b.state de a bsc cd u rs⟩

/-- Claim C2: every remote query issued by a storage read carries the
unqualified `none` ("latest") block reference, while every remote balance,
nonce and code query issued by the other reads carries the construction-time
pinned reference `b.block`. -/
theorem c2_storage_latest_others_pinned (b : ForkMemoryBackend) (p : Provider)
    (a : H160) (i : H256) (keccak : List Nat → H256) :
    ((b.storage p a i).queries.all fun q =>
      decide (q = Query.getStorageAt a i none)) = true ∧
    ((b.basic p a).queries.all fun q =>
      decide (q = Query.getBalance a b.block) ||
        decide (q = Query.getTransactionCount a b.block)) = true ∧
    ((b.code p a).queries.all fun q => decide (q = Query.getCode a b.block)) = true ∧
    ((b.code_size p a).queries.all fun q => decide (q = Query.getCode a b.block)) = true ∧
    ((b.code_hash p keccak a).queries.all fun q =>
      decide (q = Query.getCode a b.block)) = true := by
  refine ⟨?_, basicCore_queries_all b p a, codeResolve_queries_all b p a,
    codeResolve_queries_all b p a, codeResolve_queries_all b p a⟩
  simp [ForkMemoryBackend.storage, storageCore_queries]

/-- Claim C6: committing a `Modify` with `reset_storage = true` and no
storage updates leaves the address's storage mapping resolved and empty,
whatever was cached before. -/
theorem c6_reset_storage_clears (b : ForkMemoryBackend) (de : Bool) (a : H160)
    (bsc : Basic) (cd : Option (List Nat)) (logs : List Log) :
    (modifyAccount b.state a bsc cd [] true).storage = some [] ∧
    bLookup ((b.apply [.Modify a bsc cd [] true] logs de).state) a =
      some (modifyAccount b.state a bsc cd [] true) := by
  constructor
  · rw [modifyAccount_storage]
    rfl
  · simp only [ForkMemoryBackend.apply, List.foldl_cons, List.foldl_nil]
    exact lookup_applyOne_modify b.state de a bsc cd [] true

/-- Claim C8: `block_hash` returns the zero hash at or after the current
block, and when the offset `block_number - number - 1` falls outside the
recent-hash window; inside the window it returns the stored hash at that
offset. For current block `B` and window length `W`: `block_hash B = 0`,
`block_hash (B-1)` is the most recent stored hash (offset 0), and
`block_hash (B-1-W) = 0`. It is a pure function of the execution context
(and, by its type, never consults the provider). -/
theorem c8_block_hash_window (b : ForkMemoryBackend) (n : U256) :
    (n ≥ b.vicinity.block_number → b.block_hash n = 0) ∧
    (b.vicinity.block_number - n - 1 ≥ b.vicinity.block_hashes.length →
      b.block_hash n = 0) ∧
    (n < b.vicinity.block_number →
      b.vicinity.block_number - n - 1 < b.vicinity.block_hashes.length →
      b.block_hash n =
        b.vicinity.block_hashes.getD (b.vicinity.block_number - n - 1) 0) ∧
    b.block_hash b.vicinity.block_number = 0 ∧
    (1 ≤ b.vicinity.block_number → 0 < b.vicinity.block_hashes.length →
      b.block_hash (b.vicinity.block_number - 1) = b.vicinity.block_hashes.getD 0 0) ∧
    (b.vicinity.block_hashes.length + 1 ≤ b.vicinity.block_number →
      b.block_hash (b.vicinity.block_number - 1 - b.vicinity.block_hashes.length) = 0) ∧
    (∀ b' : ForkMemoryBackend, b'.vicinity = b.vicinity →
      ∀ m, b'.block_hash m = b.block_hash m) := by
  refine ⟨?_, ?_, ?_, ?_, ?_, ?_, ?_⟩
  · intro h
    rw [ForkMemoryBackend.block_hash, if_pos (Or.inl h)]
  · intro h
    rw [ForkMemoryBackend.block_hash, if_pos (Or.inr h)]
  · intro h1 h2
    have hc : ¬(n ≥ b.vicinity.block_number ∨
        b.vicinity.block_number - n - 1 ≥ b.vicinity.block_hashes.length) := by
      push_neg
      exact ⟨h1, h2⟩
    rw [ForkMemoryBackend.block_hash, if_neg hc]
  · rw [ForkMemoryBackend.block_hash, if_pos (Or.inl (le_refl _))]
  · intro h1 h2
    have hoff' : ∀ x : Nat, x - (x - 1) - 1 = 0 := fun x => by omega
    have hoff := hoff' b.vicinity.block_number
    have hc : ¬(b.vicinity.block_number - 1 ≥ b.vicinity.block_number ∨
        b.vicinity.block_number - (b.vicinity.block_number - 1) - 1 ≥
          b.vicinity.block_hashes.length) := by
      push_neg
      exact ⟨Nat.sub_lt h1 Nat.one_pos, by rw [hoff]; exact h2⟩
    rw [ForkMemoryBackend.block_hash, if_neg hc, hoff]
  · intro h
    have hgen : ∀ x w : Nat, w + 1 ≤ x → x - (x - 1 - w) - 1 ≥ w :=
      fun x w hw => by omega
    have hc := hgen b.vicinity.block_number b.vicinity.block_hashes.length h
    rw [ForkMemoryBackend.block_hash, if_pos (Or.inr hc)]
  · intro b' h m
    rw [ForkMemoryBackend.block_hash, ForkMemoryBackend.block_hash, h]

/-- Witness for C8 on a concrete context: block number 10, window
`[101, 102, 103]`. -/
theorem c8_block_hash_window_witness :
    wEmptyBackend.block_hash 10 = 0 ∧ wEmptyBackend.block_hash 9 = 101 ∧
    wEmptyBackend.block_hash 6 = 0 ∧ wEmptyBackend.block_hash 12 = 0 ∧
    wEmptyBackend.block_hash 8 = 102 := by
  have h := c8_block_hash_window wEmptyBackend 8
  refine ⟨h.2.2.2.1, ?_, ?_, ?_, ?_⟩
  · have := h.2.2.2.2.1 (by decide) (by decide)
    simpa using this
  · have := h.2.2.2.2.2.1 (by decide)
    simpa using this
  · exact (c8_block_hash_window wEmptyBackend 12).1 (by decide)
  · have := h.2.2.1 (by decide) (by decide)
    simpa using this

/-- Counterexample to claim C3 as stated: on a backend whose address 1 has
every field resolved and storage key 2 cached, a storage read for the
cached key still issues a remote query (the `or_insert` fallback argument
is evaluated eagerly), and with a failing provider the read fails — so
neither "issues no remote query" nor "success independent of the remote
source" holds for cached storage keys. -/
theorem c3_cex_cached_storage_key_still_queries :
    (wResolvedBackend.storage errProvider 1 2).queries ≠ [] ∧
    isErr (wResolvedBackend.storage errProvider 1 2).result = true := by
  constructor
  · decide
  · decide

/-- Claim C3 (amended): for an address with balance, nonce, code and the
storage mapping resolved, `basic`, `code`, `code_hash` and `code_size`
return the cached values and issue no remote query (so their outcome is
independent of the provider); a storage read for a key present in the
resolved mapping still issues exactly one remote query — when that query
succeeds the returned value is the cached one, independent of the remote
answer, but a remote failure fails the read. -/
theorem c3_resolved_reads_local_except_storage (b : ForkMemoryBackend) (p : Provider)
    (a : H160) (k : H256) (keccak : List Nat → H256) (acct : ForkMemoryAccount)
    (bal non : U256) (c : List Nat) (st : Smap) (v : H256)
    (ha : bLookup b.state a = some acct) (hbal : acct.balance = some bal)
    (hnon : acct.nonce = some non) (hcode : acct.code = some c)
    (hst : acct.storage = some st) (hk : bLookup st k = some v) :
    (b.basic p a).result = .ok { balance := bal, nonce := non } ∧
    (b.basic p a).queries = [] ∧
    (b.code p a).result = .ok c ∧ (b.code p a).queries = [] ∧
    (b.code_size p a).result = .ok c.length ∧ (b.code_size p a).queries = [] ∧
    (b.code_hash p keccak a).result = .ok (keccak c) ∧
    (b.code_hash p keccak a).queries = [] ∧
    (b.storage p a k).queries = [Query.getStorageAt a k none] ∧
    (∀ r, p.getStorageAt a k none = .ok r → (b.storage p a k).result = .ok v) ∧
    (∀ e, p.getStorageAt a k none = .error e → (b.storage p a k).result = .error e) := by
  have hbc := basicCore_resolved b p a acct bal non ha hbal hnon
  have hcr := codeResolve_resolved b p a acct c ha hcode
  have hhit := storageCore_hit b p a k acct st v ha hst hk
  refine ⟨?_, ?_, ?_, ?_, ?_, ?_, ?_, ?_, ?_, ?_, ?_⟩
  · simp [ForkMemoryBackend.basic, hbc]
  · simp [ForkMemoryBackend.basic, hbc]
  · simp [ForkMemoryBackend.code, hcr]
  · simp [ForkMemoryBackend.code, hcr]
  · simp [ForkMemoryBackend.code_size, hcr, Except.map]
  · simp [ForkMemoryBackend.code_size, hcr]
  · simp [ForkMemoryBackend.code_hash, hcr, Except.map]
  · simp [ForkMemoryBackend.code_hash, hcr]
  · exact storageCore_queries b p a k
  · intro r hr
    simp [ForkMemoryBackend.storage, hhit, hr]
  · intro e he
    simp [ForkMemoryBackend.storage, hhit, he]

/-- Witness for the amended C3 at a concrete fully-resolved backend. -/
theorem c3_resolved_reads_local_except_storage_witness :
    (wResolvedBackend.basic okProvider 1).result = .ok { balance := 8, nonce := 3 } ∧
    (wResolvedBackend.basic okProvider 1).queries = [] ∧
    (wResolvedBackend.storage okProvider 1 2).result = .ok 44 := by
  have h := c3_resolved_reads_local_except_storage wResolvedBackend okProvider 1 2
    (fun _ => 77) resolvedAccount 8 3 [9, 9] [(2, 44)] 44
    (by decide) (by decide) (by decide) (by decide) (by decide) (by decide)
  exact ⟨h.1, h.2.1, h.2.2.2.2.2.2.2.2.2.1 55 rfl⟩

/-- Claim C4: the read operations leave the overlay (account mapping, event
log and the whole backend state) unchanged — a value resolved from the
remote source during a read is not persisted — so a repeated read observes
the identical overlay and issues the same remote queries again: a storage
read always queries, and `basic` queries again whenever the balance is
still unresolved. (`existsAddr` and `block_hash` take no provider and
return no state at all, so they trivially mutate nothing.) -/
theorem c4_reads_leave_overlay_unchanged (b : ForkMemoryBackend) (p : Provider)
    (a : H160) (i : H256) (keccak : List Nat → H256) :
    (b.basic p a).post = b ∧ (b.code p a).post = b ∧ (b.code_size p a).post = b ∧
    (b.code_hash p keccak a).post = b ∧ (b.storage p a i).post = b ∧
    ((b.basic p a).post.basic p a = b.basic p a ∧
      (b.basic p a).post.storage p a i = b.storage p a i) ∧
    (balanceUnresolved b a = true → (b.basic p a).queries ≠ []) ∧
    (b.storage p a i).queries ≠ [] :=
  ⟨rfl, rfl, rfl, rfl, rfl, ⟨rfl, rfl⟩,
   fun h => basicCore_queries_ne_nil_of_unresolved b p a h,
   by simp [ForkMemoryBackend.storage, storageCore_queries]⟩

/-- Witness for C4 on an empty overlay (balance unresolved at address 1). -/
theorem c4_reads_leave_overlay_unchanged_witness :
    (wEmptyBackend.basic okProvider 1).post = wEmptyBackend ∧
    (wEmptyBackend.basic okProvider 1).queries ≠ [] := by
  have h := c4_reads_leave_overlay_unchanged wEmptyBackend okProvider 1 0 (fun _ => 77)
  exact ⟨h.1, h.2.2.2.2.2.2.1 (by decide)⟩

/-- Claim C5: committing a `Modify` whose storage updates set key `k` to
zero (the updates forming a mapping: one entry per key) leaves `k` absent
from the resolved storage mapping, and a subsequent storage read for `k`
escalates to the remote source exactly as if the key had never been set:
one remote query, whose answer (or failure) becomes the read's outcome. -/
theorem c5_zero_update_prunes_key (b : ForkMemoryBackend) (de : Bool) (a : H160)
    (bsc : Basic) (cd : Option (List Nat)) (u : List (H256 × H256)) (rs : Bool)
    (k : H256) (p : Provider) (logs : List Log)
    (hmem : (k, 0) ∈ u) (hnd : (u.map Prod.fst).Nodup) :
    ∃ m : Smap, (modifyAccount b.state a bsc cd u rs).storage = some m ∧
      bLookup m k = none ∧
      (∀ r, p.getStorageAt a k none = .ok r →
        ((b.apply [.Modify a bsc cd u rs] logs de).storage p a k).result = .ok r) ∧
      (∀ e, p.getStorageAt a k none = .error e →
        ((b.apply [.Modify a bsc cd u rs] logs de).storage p a k).result = .error e) ∧
      ((b.apply [.Modify a bsc cd u rs] logs de).storage p a k).queries =
        [Query.getStorageAt a k none] := by
  have hLA : lastAction u k = some 0 := lastAction_of_mem_nodup u k 0 hmem hnd
  refine ⟨mergeStorage
      (pruneZeros (if rs then [] else ((bLookup b.state a).getD emptyAccount).storage.getD []))
      u, modifyAccount_storage b.state a bsc cd u rs, ?_, ?_, ?_, ?_⟩
  · rw [bLookup_mergeStorage, hLA]
    rfl
  · intro r hr
    have hlk : bLookup ((b.apply [.Modify a bsc cd u rs] logs de).state) a =
        some (modifyAccount b.state a bsc cd u rs) := by
      simp only [ForkMemoryBackend.apply, List.foldl_cons, List.foldl_nil]
      exact lookup_applyOne_modify b.state de a bsc cd u rs
    have hmiss := storageCore_miss (b.apply [.Modify a bsc cd u rs] logs de) p a k
      (modifyAccount b.state a bsc cd u rs) _ hlk (modifyAccount_storage b.state a bsc cd u rs)
      (by rw [bLookup_mergeStorage, hLA]; rfl)
    simp [ForkMemoryBackend.storage, hmiss, hr]
  · intro e he
    have hlk : bLookup ((b.apply [.Modify a bsc cd u rs] logs de).state) a =
        some (modifyAccount b.state a bsc cd u rs) := by
      simp only [ForkMemoryBackend.apply, List.foldl_cons, List.foldl_nil]
      exact lookup_applyOne_modify b.state de a bsc cd u rs
    have hmiss := storageCore_miss (b.apply [.Modify a bsc cd u rs] logs de) p a k
      (modifyAccount b.state a bsc cd u rs) _ hlk (modifyAccount_storage b.state a bsc cd u rs)
      (by rw [bLookup_mergeStorage, hLA]; rfl)
    simp [ForkMemoryBackend.storage, hmiss, he]
  · exact storageCore_queries (b.apply [.Modify a bsc cd u rs] logs de) p a k

/-- Witness for C5: on the resolved backend, committing `(2, 0)` prunes the
cached entry `(2, 44)` and the next read returns the remote answer. -/
theorem c5_zero_update_prunes_key_witness :
    ((wResolvedBackend.apply [.Modify 1 ⟨10, 4⟩ none [(2, 0)] false] [] false).storage
      okProvider 1 2).result = .ok 55 := by
  obtain ⟨m, hm, hk, hok, herr, hq⟩ := c5_zero_update_prunes_key wResolvedBackend false 1
    ⟨10, 4⟩ none [(2, 0)] false 2 okProvider [] (by decide) (by decide)
  exact hok 55 rfl

/-- Claim C7: committing the same `Modify` diff entry twice is idempotent —
after the second commit the address's account record is observably
identical (equal balance, nonce and code; same storage lookups) to its
state after the first commit. -/
theorem c7_modify_commit_idempotent (st : BMap ForkMemoryAccount) (de : Bool) (a : H160)
    (bsc : Basic) (cd : Option (List Nat)) (u : List (H256 × H256)) (rs : Bool) :
    bLookup (applyOne st de (.Modify a bsc cd u rs)) a =
      some (modifyAccount st a bsc cd u rs) ∧
    bLookup (applyOne (applyOne st de (.Modify a bsc cd u rs)) de
        (.Modify a bsc cd u rs)) a =
      some (modifyAccount (applyOne st de (.Modify a bsc cd u rs)) a bsc cd u rs) ∧
    obsEqAccount (modifyAccount (applyOne st de (.Modify a bsc cd u rs)) a bsc cd u rs)
      (modifyAccount st a bsc cd u rs) := by
  have hlk : bLookup (applyOne st de (.Modify a bsc cd u rs)) a =
      some (modifyAccount st a bsc cd u rs) :=
    lookup_applyOne_modify st de a bsc cd u rs
  refine ⟨hlk,
    lookup_applyOne_modify (applyOne st de (.Modify a bsc cd u rs)) de a bsc cd u rs, ?_⟩
  unfold obsEqAccount
  refine ⟨?_, ?_, ?_, ?_⟩
  · rw [modifyAccount_balance, modifyAccount_balance]
  · rw [modifyAccount_nonce, modifyAccount_nonce]
  · rw [modifyAccount_code, modifyAccount_code, hlk]
    cases cd with
    | some c => rfl
    | none => simp [modifyAccount_code]
  · rw [modifyAccount_storage, modifyAccount_storage, hlk]
    cases rs with
    | true =>
      simp only [obsEqStorage]
      intro k
      rfl
    | false =>
      simp only [obsEqStorage, Option.getD_some, modifyAccount_storage, if_false,
        Bool.false_eq_true]
      intro k
      exact mergeStorage_idem_lookup _ u k

/-- Claim C9: when a read attempts to resolve an unresolved balance, nonce,
code or storage field and the remote query for that field fails, the read
itself fails — it never substitutes a default value for a field whose
resolution was attempted and failed. -/
theorem c9_remote_failure_fatal (b : ForkMemoryBackend) (p : Provider) (a : H160)
    (i : H256) (keccak : List Nat → H256) (e : String) :
    (balanceUnresolved b a = true → p.getBalance a b.block = .error e →
      (b.basic p a).result = .error e) ∧
    (nonceUnresolved b a = true → p.getTransactionCount a b.block = .error e →
      isErr (b.basic p a).result = true) ∧
    (codeUnresolved b a = true → p.getCode a b.block = .error e →
      (b.code p a).result = .error e ∧ (b.code_size p a).result = .error e ∧
        (b.code_hash p keccak a).result = .error e) ∧
    (storageKeyUnresolved b a i = true → p.getStorageAt a i none = .error e →
      (b.storage p a i).result = .error e) := by
  refine ⟨?_, ?_, ?_, ?_⟩
  · intro h he
    cases hb : bLookup b.state a with
    | none => simp [ForkMemoryBackend.basic, basicCore, hb, he]
    | some acct =>
      have hbal : acct.balance = none := by
        simpa [balanceUnresolved, hb, Option.isNone_iff_eq_none] using h
      simp [ForkMemoryBackend.basic, basicCore, hb, basicResolve, hbal, he]
  · intro h he
    cases hb : bLookup b.state a with
    | none =>
      cases hgb : p.getBalance a b.block with
      | error e' => simp [ForkMemoryBackend.basic, basicCore, hb, hgb, isErr]
      | ok bal => simp [ForkMemoryBackend.basic, basicCore, hb, hgb, he, isErr]
    | some acct =>
      have hn : acct.nonce = none := by
        simpa [nonceUnresolved, hb, Option.isNone_iff_eq_none] using h
      cases hbal : acct.balance with
      | some bal =>
        simp [ForkMemoryBackend.basic, basicCore, hb, basicResolve, hbal, hn, he, isErr]
      | none =>
        cases hgb : p.getBalance a b.block with
        | error e' =>
          simp [ForkMemoryBackend.basic, basicCore, hb, basicResolve, hbal, hgb, isErr]
        | ok bal =>
          simp [ForkMemoryBackend.basic, basicCore, hb, basicResolve, hbal, hn, hgb, he,
            isErr]
  · intro h he
    cases hb : bLookup b.state a with
    | none =>
      refine ⟨?_, ?_, ?_⟩ <;>
        simp [ForkMemoryBackend.code, ForkMemoryBackend.code_size,
          ForkMemoryBackend.code_hash, codeResolve, hb, he, Except.map]
    | some acct =>
      have hc : acct.code = none := by
        simpa [codeUnresolved, hb, Option.isNone_iff_eq_none] using h
      refine ⟨?_, ?_, ?_⟩ <;>
        simp [ForkMemoryBackend.code, ForkMemoryBackend.code_size,
          ForkMemoryBackend.code_hash, codeResolve, hb, hc, he, Except.map]
  · intro h he
    cases hb : bLookup b.state a with
    | none => simp [ForkMemoryBackend.storage, storageCore, hb, he]
    | some acct =>
      cases hs : acct.storage with
      | none => simp [ForkMemoryBackend.storage, storageCore, hb, hs, he]
      | some stg => simp [ForkMemoryBackend.storage, storageCore, hb, hs, he]

/-- Witness for C9: on an empty overlay with a failing provider, `basic`
and `storage` both fail with the provider's error. -/
theorem c9_remote_failure_fatal_witness :
    (wEmptyBackend.basic errProvider 1).result = .error "node unreachable" ∧
    (wEmptyBackend.storage errProvider 1 2).result = .error "node unreachable" := by
  have h := c9_remote_failure_fatal wEmptyBackend errProvider 1 2 (fun _ => 77)
    "node unreachable"
  exact ⟨h.1 (by decide) rfl, h.2.2.2 (by decide) rfl⟩

/-- Claim C10: a commit changes only the account records of the addresses
named in the diff, appends the diff's logs to the end of the event log in
diff order, and leaves the execution context (and pinned block) unchanged;
a `Delete` for an address with no account record leaves the state
unchanged. -/
theorem c10_commit_frame (b : ForkMemoryBackend) (values : List Apply) (logs : List Log)
    (de : Bool) (a : H160) (st : BMap ForkMemoryAccount) :
    (a ∉ touchedAddrs values →
      bLookup (b.apply values logs de).state a = bLookup b.state a) ∧
    (b.apply values logs de).logs = b.logs ++ logs ∧
    (b.apply values logs de).vicinity = b.vicinity ∧
    (b.apply values logs de).block = b.block ∧
    (bLookup st a = none → applyOne st de (.Delete a) = st) := by
  refine ⟨?_, rfl, rfl, rfl, ?_⟩
  · intro h
    exact lookup_applyFold_ne values b.state de a h
  · intro h
    exact bErase_of_none st a h

/-- Witness for C10: deleting the absent address 5 leaves address 1's
record readable unchanged, and a `Delete` on an empty state is a no-op. -/
theorem c10_commit_frame_witness :
    bLookup ((wResolvedBackend.apply [Apply.Delete 5] [⟨1, [2], [3]⟩] false).state) 1 =
      bLookup wResolvedBackend.state 1 ∧
    applyOne [] false (.Delete 1) = [] := by
  have h := c10_commit_frame wResolvedBackend [Apply.Delete 5] [⟨1, [2], [3]⟩] false 1 []
  exact ⟨h.1 (by decide), h.2.2.2.2 (by decide)⟩
